import Mathlib

/-!
Shallow embedding of the x402-cre-price-alerts rule ingestion and
evaluation pipeline.

Embedded source files:
* `contracts/src/RuleRegistry.sol` — the on-chain append-only rule store
  (`writeRule`, `getRule`, `getAllRules`, `getRuleCount`, `_processReport`).
* `contracts/src/interfaces/ReceiverTemplate.sol` — the report
  authenticator (`onReport` with its four optional predicates).
* `cre/alerts/cronCallback.ts` — the evaluator (`checkCondition`,
  `getAllRules` caller strategy, `onCronTrigger`).

Bytes are modelled as natural numbers below 256, byte strings as
`List Nat`, `uint256` values as `Nat` taken modulo `2 ^ 256` where the
source can overflow, and TypeScript `bigint` values as `Int`.
-/

namespace RuleRegistry

/-- Rule struct of `RuleRegistry.sol`: `bytes32 id`, `string asset`,
`string condition`, `uint256 targetPriceUsd`, `uint256 createdAt`.
The two strings are modelled by their UTF-8 byte lists. -/
structure Rule where
  id : List Nat
  asset : List Nat
  condition : List Nat
  targetPriceUsd : Nat
  createdAt : Nat
deriving DecidableEq

/-- Zero-initialized rule, the default value of the Solidity mapping slot. -/
def zeroRule : Rule :=
  { id := List.replicate 32 0, asset := [], condition := [],
    targetPriceUsd := 0, createdAt := 0 }

/-- Contract storage relevant to the rule store: the
`mapping(uint256 => Rule) rules` and the `uint256 nextRuleId` counter. -/
structure RegistryState where
  rules : Nat → Rule
  nextRuleId : Nat

/-- Freshly deployed registry: empty mapping, counter at zero. -/
def initialRegistry : RegistryState :=
  { rules := fun _ => zeroRule, nextRuleId := 0 }

/-- Embedding of `writeRule`: assigns the next sequential id, stores the
rule at that index and increments the counter. -/
def writeRule (s : RegistryState) (r : Rule) : RegistryState :=
  { rules := fun i => if i = s.nextRuleId then r else s.rules i,
    nextRuleId := s.nextRuleId + 1 }

/-- Index returned by `writeRule` for the rule being appended. -/
def writeRuleIndex (s : RegistryState) : Nat := s.nextRuleId

/-- Error taxonomy of the store read path: `getRule` reverts with
"Rule does not exist" when the index is out of range. -/
inductive StoreError where
  | RuleNotFound
deriving DecidableEq

/-- Embedding of `getRule`: `require(_ruleId < nextRuleId)`, then return
the mapping entry. -/
def getRule (s : RegistryState) (ruleId : Nat) : Except StoreError Rule :=
  if ruleId < s.nextRuleId then .ok (s.rules ruleId) else .error .RuleNotFound

/-- Embedding of `getRuleCount`: returns `nextRuleId`. -/
def getRuleCount (s : RegistryState) : Nat := s.nextRuleId

/-- Embedding of the contract-side `getAllRules`: the array
`[rules[0], …, rules[nextRuleId - 1]]`. -/
def getAllRules (s : RegistryState) : List Rule :=
  (List.range s.nextRuleId).map s.rules

/-- Appending a whole list of rules in order, one `writeRule` per element. -/
def appendAll (s : RegistryState) (rs : List Rule) : RegistryState :=
  rs.foldl writeRule s

end RuleRegistry

namespace ReportCodec

/-- Big-endian byte expansion of a natural number into `k` bytes
(the value is taken modulo `256 ^ k`). -/
def natToBeBytes (k n : Nat) : List Nat :=
  (List.range k).map (fun i => n / 256 ^ (k - 1 - i) % 256)

/-- A `uint256` word: 32 big-endian bytes. -/
def natToWord (n : Nat) : List Nat := natToBeBytes 32 n

/-- Big-endian byte list read back as a natural number. -/
def beToNat (bs : List Nat) : Nat :=
  bs.foldl (fun acc b => 256 * acc + b) 0

/-- Right-padding of a byte string with zero bytes up to a multiple of 32,
as the ABI tail encoding of `string` requires. -/
def padRight32 (bs : List Nat) : List Nat :=
  bs ++ List.replicate ((32 - bs.length % 32) % 32) 0

/-- Modelled from the spec: the canonical ABI encoding of the fixed report
schema `(bytes32 id, string asset, string condition, uint256 targetPriceUsd,
uint256 createdAt)` produced by `encodeAbiParameters` in
`cre/alerts/httpCallback.ts` (the encoder itself is a vendor library, not in
the repository). Head: the raw 32 `id` bytes, the two tail offsets for the
dynamic strings, and the two `uint256` values; tail: each string as a length
word followed by its zero-padded bytes. -/
def encodeRule (r : RuleRegistry.Rule) : List Nat :=
  let assetPadded := padRight32 r.asset
  let condPadded := padRight32 r.condition
  let offAsset := 160
  let offCond := 160 + 32 + assetPadded.length
  r.id ++ natToWord offAsset ++ natToWord offCond ++
    natToWord r.targetPriceUsd ++ natToWord r.createdAt ++
    natToWord r.asset.length ++ assetPadded ++
    natToWord r.condition.length ++ condPadded

/-- Contiguous slice `bs[off .. off+len)` of a byte string. -/
def slice (bs : List Nat) (off len : Nat) : List Nat :=
  (bs.drop off).take len

/-- The 32-byte word of `bs` starting at byte offset `off`, as a number. -/
def readWord (bs : List Nat) (off : Nat) : Nat :=
  beToNat (slice bs off 32)

/-- Modelled from the spec: ABI decoding of the same fixed schema, as
performed by `abi.decode(report, (bytes32, string, string, uint256,
uint256))` in `RuleRegistry._processReport` (the decoder is a Solidity
primitive, not repository code). Truncated or malformed buffers are
rejected with `none` (the `MalformedReport` outcome) instead of returning
partial data. -/
def decodeRule (bs : List Nat) : Option RuleRegistry.Rule :=
  if bs.length < 160 then none else
  let id := slice bs 0 32
  let offAsset := readWord bs 32
  let offCond := readWord bs 64
  let targetPriceUsd := readWord bs 96
  let createdAt := readWord bs 128
  if bs.length < offAsset + 32 then none else
  let assetLen := readWord bs offAsset
  if bs.length < offAsset + 32 + assetLen then none else
  let asset := slice bs (offAsset + 32) assetLen
  if bs.length < offCond + 32 then none else
  let condLen := readWord bs offCond
  if bs.length < offCond + 32 + condLen then none else
  let condition := slice bs (offCond + 32) condLen
  some { id := id, asset := asset, condition := condition,
         targetPriceUsd := targetPriceUsd, createdAt := createdAt }

end ReportCodec

namespace ReceiverTemplate

/-- Optional permission fields of `ReceiverTemplate.sol`. Addresses are
modelled as `Nat` (`< 2 ^ 160`), `bytes10` and `bytes32` values as `Nat`;
in the source a zero value means the check is disabled. -/
structure PermissionConfig where
  forwarderAddress : Nat
  expectedAuthor : Nat
  expectedWorkflowName : Nat
  expectedWorkflowId : Nat
deriving DecidableEq

/-- Configuration with every permission field zero, the state of a freshly
deployed receiver (all checks disabled). -/
def defaultPermissions : PermissionConfig :=
  { forwarderAddress := 0, expectedAuthor := 0,
    expectedWorkflowName := 0, expectedWorkflowId := 0 }

/-- Decoded report metadata: `(bytes32 workflowId, bytes10 workflowName,
address workflowOwner)` as read by `_decodeMetadata` from the packed
metadata blob. -/
structure ReportMetadata where
  workflowId : Nat
  workflowName : Nat
  workflowOwner : Nat
deriving DecidableEq

/-- Revert reasons of the ingest path: the four custom errors of
`ReceiverTemplate.onReport` plus the `abi.decode` failure of
`RuleRegistry._processReport`. -/
inductive IngestError where
  | InvalidSender
  | InvalidWorkflowId
  | InvalidAuthor
  | InvalidWorkflowName
  | MalformedReport
deriving DecidableEq

/-- Embedding of `ReceiverTemplate.onReport` composed with
`RuleRegistry._processReport`: the sender check runs first, then — only
when at least one workflow predicate is configured — the workflow id,
author and name checks in that order; on full success the report bytes
are ABI-decoded and the rule is appended via `writeRule`. An `Except`
error models a revert: the registry state is unchanged. -/
def onReport (cfg : PermissionConfig) (s : RuleRegistry.RegistryState)
    (sender : Nat) (metadata : ReportMetadata) (report : List Nat) :
    Except IngestError RuleRegistry.RegistryState :=
  if cfg.forwarderAddress ≠ 0 ∧ sender ≠ cfg.forwarderAddress then
    .error .InvalidSender
  else if cfg.expectedWorkflowId ≠ 0 ∧ metadata.workflowId ≠ cfg.expectedWorkflowId then
    .error .InvalidWorkflowId
  else if cfg.expectedAuthor ≠ 0 ∧ metadata.workflowOwner ≠ cfg.expectedAuthor then
    .error .InvalidAuthor
  else if cfg.expectedWorkflowName ≠ 0 ∧ metadata.workflowName ≠ cfg.expectedWorkflowName then
    .error .InvalidWorkflowName
  else
    match ReportCodec.decodeRule report with
    | some r => .ok (RuleRegistry.writeRule s r)
    | none => .error .MalformedReport

/-- Registry state visible after an `onReport` transaction: the new state
on success, the unchanged pre-state on revert (EVM revert semantics). -/
def onReportState (cfg : PermissionConfig) (s : RuleRegistry.RegistryState)
    (sender : Nat) (metadata : ReportMetadata) (report : List Nat) :
    RuleRegistry.RegistryState :=
  match onReport cfg s sender metadata report with
  | .ok s2 => s2
  | .error _ => s

end ReceiverTemplate

namespace CronCallback

/-- Chainlink price feed round data (`latestRoundData`), TypeScript
`bigint` fields modelled as `Int`. -/
structure PriceData where
  roundId : Int
  answer : Int
  startedAt : Int
  updatedAt : Int
  answeredInRound : Int
deriving DecidableEq

/-- Workflow-side rule as decoded from the registry
(`cre/alerts/types.ts`): the strings are TypeScript strings and the
numeric fields are `bigint`. The `id` hash is kept abstract as a number. -/
structure Rule where
  id : Nat
  asset : String
  condition : String
  targetPriceUsd : Int
  createdAt : Int
deriving DecidableEq

/-- Embedding of `checkCondition` from `cronCallback.ts`: a switch over
the four relational operator strings, any other string falls to the
default branch returning `false`. Comparison is exact `bigint`
comparison. -/
def checkCondition (currentPrice targetPrice : Int) (condition : String) : Bool :=
  match condition with
  | "gt" => currentPrice > targetPrice
  | "lt" => currentPrice < targetPrice
  | "gte" => currentPrice ≥ targetPrice
  | "lte" => currentPrice ≤ targetPrice
  | _ => false

/-- TypeScript `bigint` division: truncation toward zero. -/
def bigintDiv (a b : Int) : Int := Int.tdiv a b

/-- Outcome of the body of the per-rule loop in `onCronTrigger`. -/
inductive RuleOutcome where
  | skippedTTL
  | unknownAsset
  | conditionNotMet
  | notified
  | notifyFailed
deriving DecidableEq

/-- Embedding of one iteration of the `rules.forEach` loop of
`onCronTrigger`: skip when `now - createdAt > ruleTTL`; resolve the asset
to one of the three pre-fetched observations, skipping unknown symbols;
normalize the answer by `bigint` division by `10 ^ 8`; check the
condition; on a match attempt the Pushover dispatch, whose success is
supplied by `notifyOk` (a thrown dispatch error is caught and only
logged). -/
def evalRule (ruleTTL now : Int) (btc eth link : PriceData)
    (notifyOk : Rule → Bool) (rule : Rule) : RuleOutcome :=
  let ruleAge := now - rule.createdAt
  if ruleAge > ruleTTL then .skippedTTL
  else
    let currentPrice : Option Int :=
      if rule.asset = "BTC" then some btc.answer
      else if rule.asset = "ETH" then some eth.answer
      else if rule.asset = "LINK" then some link.answer
      else none
    match currentPrice with
    | none => .unknownAsset
    | some p =>
      let priceInUsd := bigintDiv p (10 ^ 8)
      if checkCondition priceInUsd rule.targetPriceUsd rule.condition then
        if notifyOk rule then .notified else .notifyFailed
      else .conditionNotMet

/-- Outcomes of a whole cycle over the rule list, in enumeration order. -/
def cycleOutcomes (ruleTTL now : Int) (btc eth link : PriceData)
    (notifyOk : Rule → Bool) (rules : List Rule) : List RuleOutcome :=
  rules.map (evalRule ruleTTL now btc eth link notifyOk)

/-- The `notificationsSent` counter after the loop: one increment per
rule whose condition matched and whose dispatch succeeded. -/
def notificationsSent (ruleTTL now : Int) (btc eth link : PriceData)
    (notifyOk : Rule → Bool) (rules : List Rule) : Nat :=
  (cycleOutcomes ruleTTL now btc eth link notifyOk rules).countP
    (fun o => decide (o = .notified))

/-- Number of rules whose condition matched in the cycle (whether or not
the subsequent dispatch succeeded). The source logs these but keeps no
counter for them. -/
def matchedCount (ruleTTL now : Int) (btc eth link : PriceData)
    (notifyOk : Rule → Bool) (rules : List Rule) : Nat :=
  (cycleOutcomes ruleTTL now btc eth link notifyOk rules).countP
    (fun o => decide (o = .notified ∨ o = .notifyFailed))

/-- Embedding of `onCronTrigger` at cycle granularity. The three
`getPriceData` calls happen unconditionally up front with no `try`
around them; a failed fetch (modelled by `none`) throws out of the
handler, which `Except.error` models. With all three observations in
hand the handler returns its summary string: the early return for an
empty rule list, otherwise the processed/sent counts interpolated into
the final status message. -/
def onCronTrigger (ruleTTL now : Int)
    (btcFetch ethFetch linkFetch : Option PriceData)
    (rules : List Rule) (notifyOk : Rule → Bool) : Except Unit String :=
  match btcFetch with
  | none => .error ()
  | some btc =>
    match ethFetch with
    | none => .error ()
    | some eth =>
      match linkFetch with
      | none => .error ()
      | some link =>
        if rules.isEmpty then .ok "No rules to process"
        else
          .ok ("Processed " ++ toString rules.length ++ " rules, sent " ++
            toString (notificationsSent ruleTTL now btc eth link notifyOk rules) ++
            " notifications")

/-- Embedding of the caller-side strategy of `getAllRules` in
`cronCallback.ts`: use the decoded bulk result exactly when it is an
array whose length equals the fetched rule count, otherwise fall back to
fetching indices `0 .. count-1` individually. A non-array decode result
is modelled by `none`. -/
def getAllRulesStrategy (ruleCount : Nat)
    (bulkResult : Option (List RuleRegistry.Rule))
    (fetchRule : Nat → RuleRegistry.Rule) : List RuleRegistry.Rule :=
  match bulkResult with
  | some decoded =>
    if decoded.length = ruleCount then decoded
    else (List.range ruleCount).map fetchRule
  | none => (List.range ruleCount).map fetchRule

/-- Per-index fetch against the registry: the value `getRule(i)` returns;
an out-of-range revert would throw in the TypeScript caller, modelled by
the zero rule (it is proved unreachable for indices below the count). -/
def fetchRuleAt (s : RuleRegistry.RegistryState) (i : Nat) : RuleRegistry.Rule :=
  match RuleRegistry.getRule s i with
  | .ok r => r
  | .error _ => RuleRegistry.zeroRule

end CronCallback

/-! ### Store lemmas -/

namespace RuleRegistry

theorem appendAll_cons (s : RegistryState) (r : Rule) (rs : List Rule) :
    appendAll s (r :: rs) = appendAll (writeRule s r) rs := rfl

theorem nextRuleId_appendAll (rs : List Rule) :
    ∀ s : RegistryState, (appendAll s rs).nextRuleId = s.nextRuleId + rs.length := by
  induction rs with
  | nil => intro s; simp [appendAll]
  | cons r rs ih =>
    intro s
    rw [appendAll_cons, ih]
    simp [writeRule]
    omega

theorem rules_appendAll_lt (rs : List Rule) :
    ∀ s : RegistryState, ∀ i, i < s.nextRuleId →
      (appendAll s rs).rules i = s.rules i := by
  induction rs with
  | nil => intro s i _; rfl
  | cons r rs ih =>
    intro s i hi
    rw [appendAll_cons, ih (writeRule s r) i (by simp [writeRule]; omega)]
    simp [writeRule]
    intro h
    omega

theorem rules_appendAll_get (rs : List Rule) :
    ∀ s : RegistryState, ∀ j, ∀ h : j < rs.length,
      (appendAll s rs).rules (s.nextRuleId + j) = rs.get ⟨j, h⟩ := by
  induction rs with
  | nil => intro s j h; exact absurd h (by simp)
  | cons r rs ih =>
    intro s j h
    cases j with
    | zero =>
      rw [appendAll_cons, Nat.add_zero,
        rules_appendAll_lt rs (writeRule s r) s.nextRuleId (by simp [writeRule])]
      simp [writeRule]
    | succ j =>
      have hj : j < rs.length := by simpa using h
      have := ih (writeRule s r) j hj
      rw [appendAll_cons]
      have harg : s.nextRuleId + (j + 1) = (writeRule s r).nextRuleId + j := by
        simp [writeRule]; omega
      rw [harg, this]
      rfl

end RuleRegistry

/-- C1. Rule Store postconditions: after appending the rules of `rs` to a
fresh registry, `getRuleCount` equals `rs.length`; `getRule i` for
`i < rs.length` returns the i-th appended rule with all five fields
unchanged; and `getRule i` for any `i ≥ rs.length` (in particular the
count itself) fails with `RuleNotFound` rather than returning a default
value. -/
theorem store_postconditions (rs : List RuleRegistry.Rule) :
    RuleRegistry.getRuleCount (RuleRegistry.appendAll RuleRegistry.initialRegistry rs) =
      rs.length ∧
    (∀ i, ∀ h : i < rs.length,
      RuleRegistry.getRule (RuleRegistry.appendAll RuleRegistry.initialRegistry rs) i =
        Except.ok (rs.get ⟨i, h⟩)) ∧
    (∀ i, rs.length ≤ i →
      RuleRegistry.getRule (RuleRegistry.appendAll RuleRegistry.initialRegistry rs) i =
        Except.error RuleRegistry.StoreError.RuleNotFound) := by
  have hcount : (RuleRegistry.appendAll RuleRegistry.initialRegistry rs).nextRuleId =
      rs.length := by
    rw [RuleRegistry.nextRuleId_appendAll]
    simp [RuleRegistry.initialRegistry]
  refine ⟨hcount, ?_, ?_⟩
  · intro i h
    have hrule := RuleRegistry.rules_appendAll_get rs RuleRegistry.initialRegistry i h
    simp only [RuleRegistry.initialRegistry, Nat.zero_add] at hrule
    simp [RuleRegistry.getRule, hcount, h]
    simpa using hrule
  · intro i h
    simp [RuleRegistry.getRule, hcount]
    omega

/-- Witness for C1 at a concrete two-rule store. -/
theorem store_postconditions_witness :
    RuleRegistry.getRuleCount (RuleRegistry.appendAll RuleRegistry.initialRegistry
      [⟨List.replicate 32 1, [66, 84, 67], [103, 116], 50000, 100⟩,
       ⟨List.replicate 32 2, [69, 84, 72], [108, 116, 101], 4000, 200⟩]) = 2 ∧
    RuleRegistry.getRule (RuleRegistry.appendAll RuleRegistry.initialRegistry
      [⟨List.replicate 32 1, [66, 84, 67], [103, 116], 50000, 100⟩,
       ⟨List.replicate 32 2, [69, 84, 72], [108, 116, 101], 4000, 200⟩]) 1 =
      Except.ok ⟨List.replicate 32 2, [69, 84, 72], [108, 116, 101], 4000, 200⟩ ∧
    RuleRegistry.getRule (RuleRegistry.appendAll RuleRegistry.initialRegistry
      [⟨List.replicate 32 1, [66, 84, 67], [103, 116], 50000, 100⟩,
       ⟨List.replicate 32 2, [69, 84, 72], [108, 116, 101], 4000, 200⟩]) 2 =
      Except.error RuleRegistry.StoreError.RuleNotFound :=
  ⟨(store_postconditions _).1,
   (store_postconditions _).2.1 1 (by decide),
   (store_postconditions _).2.2 2 (by decide)⟩

/-! ### Authenticator -/

/-- C2. Report Authenticator accept/reject behaviour: with every
permission field unset, `onReport` accepts any (sender, metadata, report)
triple whose report decodes and appends exactly the decoded rule; with
exactly one predicate configured and its supplied value mismatching, the
call fails with that predicate's specific error and the registry state
(mapping and next index) is unchanged; and quite generally no
authentication failure ever mutates the store. The spec names
`UnauthorizedSender` / `InvalidOrigin` / `InvalidOwner` / `InvalidName`
correspond to the source errors `InvalidSender` / `InvalidWorkflowId` /
`InvalidAuthor` / `InvalidWorkflowName`. -/
theorem authenticator_accept_reject :
    (∀ (s : RuleRegistry.RegistryState) (sender : Nat)
        (md : ReceiverTemplate.ReportMetadata) (report : List Nat)
        (r : RuleRegistry.Rule),
      ReportCodec.decodeRule report = some r →
        ReceiverTemplate.onReport ReceiverTemplate.defaultPermissions s sender md report =
          Except.ok (RuleRegistry.writeRule s r)) ∧
    (∀ (f : Nat) (s : RuleRegistry.RegistryState) (sender : Nat)
        (md : ReceiverTemplate.ReportMetadata) (report : List Nat),
      f ≠ 0 → sender ≠ f →
        ReceiverTemplate.onReport ⟨f, 0, 0, 0⟩ s sender md report =
          Except.error ReceiverTemplate.IngestError.InvalidSender ∧
        ReceiverTemplate.onReportState ⟨f, 0, 0, 0⟩ s sender md report = s) ∧
    (∀ (w : Nat) (s : RuleRegistry.RegistryState) (sender : Nat)
        (md : ReceiverTemplate.ReportMetadata) (report : List Nat),
      w ≠ 0 → md.workflowId ≠ w →
        ReceiverTemplate.onReport ⟨0, 0, 0, w⟩ s sender md report =
          Except.error ReceiverTemplate.IngestError.InvalidWorkflowId ∧
        ReceiverTemplate.onReportState ⟨0, 0, 0, w⟩ s sender md report = s) ∧
    (∀ (a : Nat) (s : RuleRegistry.RegistryState) (sender : Nat)
        (md : ReceiverTemplate.ReportMetadata) (report : List Nat),
      a ≠ 0 → md.workflowOwner ≠ a →
        ReceiverTemplate.onReport ⟨0, a, 0, 0⟩ s sender md report =
          Except.error ReceiverTemplate.IngestError.InvalidAuthor ∧
        ReceiverTemplate.onReportState ⟨0, a, 0, 0⟩ s sender md report = s) ∧
    (∀ (n : Nat) (s : RuleRegistry.RegistryState) (sender : Nat)
        (md : ReceiverTemplate.ReportMetadata) (report : List Nat),
      n ≠ 0 → md.workflowName ≠ n →
        ReceiverTemplate.onReport ⟨0, 0, n, 0⟩ s sender md report =
          Except.error ReceiverTemplate.IngestError.InvalidWorkflowName ∧
        ReceiverTemplate.onReportState ⟨0, 0, n, 0⟩ s sender md report = s) ∧
    (∀ (cfg : ReceiverTemplate.PermissionConfig) (s : RuleRegistry.RegistryState)
        (sender : Nat) (md : ReceiverTemplate.ReportMetadata) (report : List Nat)
        (e : ReceiverTemplate.IngestError),
      ReceiverTemplate.onReport cfg s sender md report = Except.error e →
        ReceiverTemplate.onReportState cfg s sender md report = s) := by
  refine ⟨?_, ?_, ?_, ?_, ?_, ?_⟩
  · intro s sender md report r hdec
    simp [ReceiverTemplate.onReport, ReceiverTemplate.defaultPermissions, hdec]
  · intro f s sender md report hf hs
    have hrep : ReceiverTemplate.onReport ⟨f, 0, 0, 0⟩ s sender md report =
        Except.error ReceiverTemplate.IngestError.InvalidSender := by
      simp [ReceiverTemplate.onReport, hf, hs]
    exact ⟨hrep, by simp [ReceiverTemplate.onReportState, hrep]⟩
  · intro w s sender md report hw hm
    have hrep : ReceiverTemplate.onReport ⟨0, 0, 0, w⟩ s sender md report =
        Except.error ReceiverTemplate.IngestError.InvalidWorkflowId := by
      simp [ReceiverTemplate.onReport, hw, hm]
    exact ⟨hrep, by simp [ReceiverTemplate.onReportState, hrep]⟩
  · intro a s sender md report ha hm
    have hrep : ReceiverTemplate.onReport ⟨0, a, 0, 0⟩ s sender md report =
        Except.error ReceiverTemplate.IngestError.InvalidAuthor := by
      simp [ReceiverTemplate.onReport, ha, hm]
    exact ⟨hrep, by simp [ReceiverTemplate.onReportState, hrep]⟩
  · intro n s sender md report hn hm
    have hrep : ReceiverTemplate.onReport ⟨0, 0, n, 0⟩ s sender md report =
        Except.error ReceiverTemplate.IngestError.InvalidWorkflowName := by
      simp [ReceiverTemplate.onReport, hn, hm]
    exact ⟨hrep, by simp [ReceiverTemplate.onReportState, hrep]⟩
  · intro cfg s sender md report e herr
    simp [ReceiverTemplate.onReportState, herr]

set_option maxRecDepth 10000 in
/-- Witness for C2: a permissive receiver accepts a concrete well-formed
report, and a receiver with only a forwarder configured rejects a
mismatching sender without touching the store. -/
theorem authenticator_accept_reject_witness :
    ReceiverTemplate.onReport ReceiverTemplate.defaultPermissions
      RuleRegistry.initialRegistry 5 ⟨1, 2, 3⟩
      (ReportCodec.encodeRule ⟨List.replicate 32 7, [66, 84, 67], [103, 116], 50000, 1700000000⟩) =
      Except.ok (RuleRegistry.writeRule RuleRegistry.initialRegistry
        ⟨List.replicate 32 7, [66, 84, 67], [103, 116], 50000, 1700000000⟩) ∧
    ReceiverTemplate.onReport ⟨9, 0, 0, 0⟩ RuleRegistry.initialRegistry 5 ⟨1, 2, 3⟩ [] =
      Except.error ReceiverTemplate.IngestError.InvalidSender :=
  ⟨authenticator_accept_reject.1 RuleRegistry.initialRegistry 5 ⟨1, 2, 3⟩ _ _ (by decide),
   (authenticator_accept_reject.2.1 9 RuleRegistry.initialRegistry 5 ⟨1, 2, 3⟩ []
     (by decide) (by decide)).1⟩

/-! ### Dual-path list retrieval -/

/-- Per-index fetch below the count always succeeds and returns the
stored rule. -/
theorem fetchRuleAt_lt (s : RuleRegistry.RegistryState) (i : Nat)
    (h : i < s.nextRuleId) : CronCallback.fetchRuleAt s i = s.rules i := by
  simp [CronCallback.fetchRuleAt, RuleRegistry.getRule, h]

/-- The per-index fallback loop reproduces the contract-side bulk array. -/
theorem fallback_eq_getAllRules (s : RuleRegistry.RegistryState) :
    (List.range (RuleRegistry.getRuleCount s)).map (CronCallback.fetchRuleAt s) =
      RuleRegistry.getAllRules s := by
  unfold RuleRegistry.getAllRules RuleRegistry.getRuleCount
  apply List.map_congr_left
  intro i hi
  exact fetchRuleAt_lt s i (List.mem_range.mp hi)

/-- C8. Dual-path list strategy: the caller uses the decoded bulk result
exactly when it is an array whose length equals `getRuleCount()`, and
otherwise (length mismatch, or a non-array decode) falls back to fetching
indices `0 .. count-1` individually via `getRule`; and when the bulk
result is the contract's actual `getAllRules` array its length matches
the count and both paths return the same rule sequence in insertion
order. -/
theorem dual_path_list (s : RuleRegistry.RegistryState) :
    (∀ bulk : List RuleRegistry.Rule, bulk.length = RuleRegistry.getRuleCount s →
      CronCallback.getAllRulesStrategy (RuleRegistry.getRuleCount s) (some bulk)
        (CronCallback.fetchRuleAt s) = bulk) ∧
    (∀ bulk : List RuleRegistry.Rule, bulk.length ≠ RuleRegistry.getRuleCount s →
      CronCallback.getAllRulesStrategy (RuleRegistry.getRuleCount s) (some bulk)
        (CronCallback.fetchRuleAt s) =
        (List.range (RuleRegistry.getRuleCount s)).map (CronCallback.fetchRuleAt s)) ∧
    CronCallback.getAllRulesStrategy (RuleRegistry.getRuleCount s) none
      (CronCallback.fetchRuleAt s) =
      (List.range (RuleRegistry.getRuleCount s)).map (CronCallback.fetchRuleAt s) ∧
    (RuleRegistry.getAllRules s).length = RuleRegistry.getRuleCount s ∧
    CronCallback.getAllRulesStrategy (RuleRegistry.getRuleCount s)
      (some (RuleRegistry.getAllRules s)) (CronCallback.fetchRuleAt s) =
      RuleRegistry.getAllRules s ∧
    (List.range (RuleRegistry.getRuleCount s)).map (CronCallback.fetchRuleAt s) =
      RuleRegistry.getAllRules s := by
  have hlen : (RuleRegistry.getAllRules s).length = RuleRegistry.getRuleCount s := by
    simp [RuleRegistry.getAllRules, RuleRegistry.getRuleCount]
  refine ⟨?_, ?_, ?_, hlen, ?_, fallback_eq_getAllRules s⟩
  · intro bulk hb
    simp [CronCallback.getAllRulesStrategy, hb]
  · intro bulk hb
    simp [CronCallback.getAllRulesStrategy, hb]
  · rfl
  · simp [CronCallback.getAllRulesStrategy, hlen]

/-- Witness for C8 at a concrete one-rule store: the matching-length bulk
result is used as is, a wrong-length bulk result is replaced by the
per-index loop. -/
theorem dual_path_list_witness :
    CronCallback.getAllRulesStrategy
      (RuleRegistry.getRuleCount (RuleRegistry.writeRule RuleRegistry.initialRegistry
        ⟨List.replicate 32 1, [66, 84, 67], [103, 116], 50000, 100⟩))
      (some [⟨List.replicate 32 1, [66, 84, 67], [103, 116], 50000, 100⟩])
      (CronCallback.fetchRuleAt (RuleRegistry.writeRule RuleRegistry.initialRegistry
        ⟨List.replicate 32 1, [66, 84, 67], [103, 116], 50000, 100⟩)) =
      [⟨List.replicate 32 1, [66, 84, 67], [103, 116], 50000, 100⟩] ∧
    CronCallback.getAllRulesStrategy
      (RuleRegistry.getRuleCount (RuleRegistry.writeRule RuleRegistry.initialRegistry
        ⟨List.replicate 32 1, [66, 84, 67], [103, 116], 50000, 100⟩))
      (some [])
      (CronCallback.fetchRuleAt (RuleRegistry.writeRule RuleRegistry.initialRegistry
        ⟨List.replicate 32 1, [66, 84, 67], [103, 116], 50000, 100⟩)) =
      (List.range 1).map (CronCallback.fetchRuleAt (RuleRegistry.writeRule
        RuleRegistry.initialRegistry
        ⟨List.replicate 32 1, [66, 84, 67], [103, 116], 50000, 100⟩)) :=
  ⟨(dual_path_list _).1 _ (by decide),
   (dual_path_list _).2.1 [] (by decide)⟩

/-! ### Evaluator: TTL and condition matching -/

/-- C5. TTL boundary: a rule whose age `now - createdAt` equals the
configured TTL exactly is within policy (the evaluation proceeds past the
TTL gate), while a rule with age strictly greater than the TTL is always
skipped, regardless of price, condition or dispatch outcome. -/
theorem ttl_boundary (ruleTTL now : Int) (btc eth link : CronCallback.PriceData)
    (notifyOk : CronCallback.Rule → Bool) (rule : CronCallback.Rule) :
    (now - rule.createdAt = ruleTTL →
      CronCallback.evalRule ruleTTL now btc eth link notifyOk rule ≠
        CronCallback.RuleOutcome.skippedTTL) ∧
    (now - rule.createdAt > ruleTTL →
      CronCallback.evalRule ruleTTL now btc eth link notifyOk rule =
        CronCallback.RuleOutcome.skippedTTL) := by
  constructor
  · intro h
    simp only [CronCallback.evalRule]
    rw [if_neg (by omega)]
    split
    · simp
    · split
      · split <;> simp
      · simp
  · intro h
    simp only [CronCallback.evalRule]
    rw [if_pos h]

/-- Witness for C5: with TTL 1800, a rule of age exactly 1800 is
evaluated (here its condition matches and it notifies), a rule of age
1801 is skipped. -/
theorem ttl_boundary_witness :
    CronCallback.evalRule 1800 1800 ⟨1, 6000000000000, 0, 0, 1⟩ ⟨1, 0, 0, 0, 1⟩
      ⟨1, 0, 0, 0, 1⟩ (fun _ => true) ⟨0, "BTC", "gt", 50000, 0⟩ ≠
      CronCallback.RuleOutcome.skippedTTL ∧
    CronCallback.evalRule 1800 1801 ⟨1, 6000000000000, 0, 0, 1⟩ ⟨1, 0, 0, 0, 1⟩
      ⟨1, 0, 0, 0, 1⟩ (fun _ => true) ⟨0, "BTC", "gt", 50000, 0⟩ =
      CronCallback.RuleOutcome.skippedTTL :=
  ⟨(ttl_boundary 1800 1800 _ _ _ _ _).1 (by decide),
   (ttl_boundary 1800 1801 _ _ _ _ _).2 (by decide)⟩

/-- C6. Condition matching at equality: when the normalized price equals
the target, `gte` and `lte` match and `gt` and `lt` do not; the
comparison is exact integer comparison with no floating-point tolerance. -/
theorem condition_matching_at_equality (P : Int) :
    CronCallback.checkCondition P P "gte" = true ∧
    CronCallback.checkCondition P P "lte" = true ∧
    CronCallback.checkCondition P P "gt" = false ∧
    CronCallback.checkCondition P P "lt" = false := by
  simp [CronCallback.checkCondition]

/-- C10. Implicit claim — an unknown condition string never fires: for a
condition that is none of "gt", "lt", "gte", "lte", `checkCondition`
returns `false` for every price/target pair, and a rule carrying such a
condition never reaches the notification dispatch in any cycle (its
outcome is never `notified` nor `notifyFailed`). -/
theorem unknown_condition_never_fires (cond : String)
    (h1 : cond ≠ "gt") (h2 : cond ≠ "lt") (h3 : cond ≠ "gte") (h4 : cond ≠ "lte") :
    (∀ P T : Int, CronCallback.checkCondition P T cond = false) ∧
    (∀ (ruleTTL now : Int) (btc eth link : CronCallback.PriceData)
        (notifyOk : CronCallback.Rule → Bool) (rule : CronCallback.Rule),
      rule.condition = cond →
        CronCallback.evalRule ruleTTL now btc eth link notifyOk rule ≠
          CronCallback.RuleOutcome.notified ∧
        CronCallback.evalRule ruleTTL now btc eth link notifyOk rule ≠
          CronCallback.RuleOutcome.notifyFailed) := by
  have hcc : ∀ P T : Int, CronCallback.checkCondition P T cond = false := by
    intro P T
    unfold CronCallback.checkCondition
    split <;> simp_all
  refine ⟨hcc, ?_⟩
  intro ruleTTL now btc eth link notifyOk rule hc
  simp only [CronCallback.evalRule, hc, hcc]
  constructor
  · split
    · simp
    · split <;> simp
  · split
    · simp
    · split <;> simp

/-- Witness for C10 at the concrete unknown condition "eq". -/
theorem unknown_condition_never_fires_witness :
    CronCallback.checkCondition 60000 50000 "eq" = false ∧
    CronCallback.evalRule 1800 0 ⟨1, 6000000000000, 0, 0, 1⟩ ⟨1, 0, 0, 0, 1⟩
      ⟨1, 0, 0, 0, 1⟩ (fun _ => true) ⟨0, "BTC", "eq", 50000, 0⟩ ≠
      CronCallback.RuleOutcome.notified :=
  ⟨(unknown_condition_never_fires "eq" (by decide) (by decide) (by decide)
      (by decide)).1 60000 50000,
   ((unknown_condition_never_fires "eq" (by decide) (by decide) (by decide)
      (by decide)).2 1800 0 ⟨1, 6000000000000, 0, 0, 1⟩ ⟨1, 0, 0, 0, 1⟩
      ⟨1, 0, 0, 0, 1⟩ (fun _ => true) ⟨0, "BTC", "eq", 50000, 0⟩ rfl).1⟩

/-! ### Normalization -/

/-- C7 counterexample: raw answer 6000050000000 (60000.5 scaled by
10 ^ 8) against target 60000 under "gt". As exact quantities
6000050000000 / 10 ^ 8 > 60000 holds, but the code truncates the
quotient to 60000 and reports the condition as not met, so the
comparison outcome is not that of the exact unrounded quantities. -/
theorem normalization_exactness_counterexample :
    CronCallback.checkCondition (CronCallback.bigintDiv 6000050000000 (10 ^ 8))
      60000 "gt" = false ∧
    (6000050000000 : Int) > 60000 * 10 ^ 8 ∧
    CronCallback.evalRule 1800 0 ⟨1, 6000050000000, 0, 0, 1⟩ ⟨1, 0, 0, 0, 1⟩
      ⟨1, 0, 0, 0, 1⟩ (fun _ => true) ⟨0, "BTC", "gt", 60000, 0⟩ =
      CronCallback.RuleOutcome.conditionNotMet := by
  refine ⟨by decide, by decide, by decide⟩

/-- C7 amended: each observation's raw integer answer is normalized by
truncating `bigint` division by `10 ^ 8`, and the relational condition is
applied to the truncated quotient. For a nonnegative raw answer `A` and
target `T` this agrees with the exact unrounded comparison for `gte` and
`lt`, while `gt` fires exactly when `A ≥ (T + 1) · 10 ^ 8` and `lte`
exactly when `A < (T + 1) · 10 ^ 8` — the fractional part of `A / 10 ^ 8`
is discarded. -/
theorem normalization_truncated_semantics (A T : Int) (hA : 0 ≤ A) :
    CronCallback.checkCondition (CronCallback.bigintDiv A (10 ^ 8)) T "gte" =
      decide (T * 10 ^ 8 ≤ A) ∧
    CronCallback.checkCondition (CronCallback.bigintDiv A (10 ^ 8)) T "lt" =
      decide (A < T * 10 ^ 8) ∧
    CronCallback.checkCondition (CronCallback.bigintDiv A (10 ^ 8)) T "gt" =
      decide ((T + 1) * 10 ^ 8 ≤ A) ∧
    CronCallback.checkCondition (CronCallback.bigintDiv A (10 ^ 8)) T "lte" =
      decide (A < (T + 1) * 10 ^ 8) := by
  have hE : (0 : Int) < 10 ^ 8 := by decide
  have hdiv : CronCallback.bigintDiv A (10 ^ 8) = A / 10 ^ 8 := by
    unfold CronCallback.bigintDiv
    exact Int.tdiv_eq_ediv hA (by decide)
  rw [hdiv]
  refine ⟨?_, ?_, ?_, ?_⟩
  · simp only [CronCallback.checkCondition, ge_iff_le, decide_eq_decide]
    exact Int.le_ediv_iff_mul_le hE
  · simp only [CronCallback.checkCondition, decide_eq_decide]
    exact Int.ediv_lt_iff_lt_mul hE
  · simp only [CronCallback.checkCondition, gt_iff_lt, decide_eq_decide]
    rw [Int.lt_iff_add_one_le]
    exact Int.le_ediv_iff_mul_le hE
  · simp only [CronCallback.checkCondition, decide_eq_decide]
    rw [← Int.lt_add_one_iff]
    exact Int.ediv_lt_iff_lt_mul hE

/-- Witness for C7 amended at the counterexample input. -/
theorem normalization_truncated_semantics_witness :
    (0 : Int) ≤ 6000050000000 ∧
    CronCallback.checkCondition (CronCallback.bigintDiv 6000050000000 (10 ^ 8))
      60000 "gt" = decide ((60000 + 1 : Int) * 10 ^ 8 ≤ 6000050000000) :=
  ⟨by decide, (normalization_truncated_semantics 6000050000000 60000 (by decide)).2.2.1⟩

/-! ### Cycle-level behaviour -/

/-- C4 counterexample: with the BTC fetch failing, the ETH fetch
succeeding, and a single ETH rule on file that would match and notify
when evaluated (second conjunct), the whole cycle nevertheless aborts
with an error — rules referencing the other, healthy assets are not
evaluated in that cycle. -/
theorem price_failure_isolation_counterexample :
    CronCallback.onCronTrigger 1800 0 none (some ⟨1, 400000000000, 0, 0, 1⟩)
      (some ⟨1, 0, 0, 0, 1⟩) [⟨0, "ETH", "gt", 3000, 0⟩] (fun _ => true) =
      Except.error () ∧
    CronCallback.evalRule 1800 0 ⟨1, 0, 0, 0, 1⟩ ⟨1, 400000000000, 0, 0, 1⟩
      ⟨1, 0, 0, 0, 1⟩ (fun _ => true) ⟨0, "ETH", "gt", 3000, 0⟩ =
      CronCallback.RuleOutcome.notified :=
  ⟨rfl, by decide⟩

/-- C4 amended: the three price fetches run unconditionally up front with
no per-asset error handling, so a failed fetch for any one asset aborts
the entire evaluation cycle and no rule at all is evaluated in that
cycle; per-rule failure isolation exists only further down, e.g. a failed
notification dispatch never aborts the cycle. -/
theorem price_failure_aborts_cycle :
    (∀ (ruleTTL now : Int) (bf ef lf : Option CronCallback.PriceData)
        (rules : List CronCallback.Rule) (notifyOk : CronCallback.Rule → Bool),
      bf = none ∨ ef = none ∨ lf = none →
        CronCallback.onCronTrigger ruleTTL now bf ef lf rules notifyOk =
          Except.error ()) ∧
    (∀ (ruleTTL now : Int) (b e l : CronCallback.PriceData)
        (rules : List CronCallback.Rule),
      (CronCallback.onCronTrigger ruleTTL now (some b) (some e) (some l) rules
        (fun _ => false)).isOk = true) := by
  constructor
  · intro ruleTTL now bf ef lf rules notifyOk h
    rcases h with h | h | h
    · subst h; rfl
    · subst h; cases bf <;> rfl
    · subst h; cases bf <;> cases ef <;> rfl
  · intro ruleTTL now b e l rules
    simp only [CronCallback.onCronTrigger]
    split <;> rfl

/-- Witness for C4 amended: a concrete cycle with a failed ETH fetch
aborts; a concrete cycle whose every dispatch fails still completes. -/
theorem price_failure_aborts_cycle_witness :
    CronCallback.onCronTrigger 1800 0 (some ⟨1, 0, 0, 0, 1⟩) none
      (some ⟨1, 0, 0, 0, 1⟩) [⟨0, "BTC", "gt", 1, 0⟩] (fun _ => true) =
      Except.error () ∧
    (CronCallback.onCronTrigger 1800 0 (some ⟨1, 6000000000000, 0, 0, 1⟩)
      (some ⟨1, 0, 0, 0, 1⟩) (some ⟨1, 0, 0, 0, 1⟩) [⟨0, "BTC", "gt", 50000, 0⟩]
      (fun _ => false)).isOk = true :=
  ⟨price_failure_aborts_cycle.1 1800 0 _ none _ _ _ (Or.inr (Or.inl rfl)),
   price_failure_aborts_cycle.2 1800 0 _ _ _ _⟩

/-- C9 counterexample: the cycle summary contains only the total rule
count and the notifications-sent count, not the matched count — two
concrete cycles, one whose single rule matched (dispatch failed) and one
whose single rule did not match, return identical aggregate results while
their matched counts differ; moreover a cycle with a failed asset fetch
does not return counts at all but aborts. -/
theorem cycle_aggregate_counterexample :
    CronCallback.onCronTrigger 1800 0 (some ⟨1, 6000000000000, 0, 0, 1⟩)
      (some ⟨1, 6000000000000, 0, 0, 1⟩) (some ⟨1, 6000000000000, 0, 0, 1⟩)
      [⟨0, "BTC", "gt", 50000, 0⟩] (fun _ => false) =
    CronCallback.onCronTrigger 1800 0 (some ⟨1, 6000000000000, 0, 0, 1⟩)
      (some ⟨1, 6000000000000, 0, 0, 1⟩) (some ⟨1, 6000000000000, 0, 0, 1⟩)
      [⟨0, "BTC", "gt", 70000, 0⟩] (fun _ => false) ∧
    CronCallback.matchedCount 1800 0 ⟨1, 6000000000000, 0, 0, 1⟩
      ⟨1, 6000000000000, 0, 0, 1⟩ ⟨1, 6000000000000, 0, 0, 1⟩ (fun _ => false)
      [⟨0, "BTC", "gt", 50000, 0⟩] = 1 ∧
    CronCallback.matchedCount 1800 0 ⟨1, 6000000000000, 0, 0, 1⟩
      ⟨1, 6000000000000, 0, 0, 1⟩ ⟨1, 6000000000000, 0, 0, 1⟩ (fun _ => false)
      [⟨0, "BTC", "gt", 70000, 0⟩] = 0 ∧
    CronCallback.onCronTrigger 1800 0 none (some ⟨1, 6000000000000, 0, 0, 1⟩)
      (some ⟨1, 6000000000000, 0, 0, 1⟩) [⟨0, "BTC", "gt", 50000, 0⟩]
      (fun _ => true) = Except.error () :=
  ⟨rfl, by decide, by decide, rfl⟩

/-- C9 amended: whenever the three price fetches succeed, the cycle
terminates successfully at the cycle level for every rule list and every
dispatch outcome, returning an aggregate that reports the total rules
considered and the count of notifications sent (the matched count is
logged but not part of the aggregate); a failed price fetch instead
aborts the cycle. -/
theorem cycle_aggregate_result (ruleTTL now : Int)
    (b e l : CronCallback.PriceData) (rules : List CronCallback.Rule)
    (notifyOk : CronCallback.Rule → Bool) :
    CronCallback.onCronTrigger ruleTTL now (some b) (some e) (some l) rules notifyOk =
      Except.ok (if rules.isEmpty then "No rules to process"
        else "Processed " ++ toString rules.length ++ " rules, sent " ++
          toString (CronCallback.notificationsSent ruleTTL now b e l notifyOk rules) ++
          " notifications") ∧
    CronCallback.notificationsSent ruleTTL now b e l notifyOk rules ≤
      CronCallback.matchedCount ruleTTL now b e l notifyOk rules ∧
    CronCallback.matchedCount ruleTTL now b e l notifyOk rules ≤ rules.length := by
  refine ⟨?_, ?_, ?_⟩
  · cases hE : rules.isEmpty <;> simp [CronCallback.onCronTrigger, hE]
  · apply List.countP_mono_left
    intro o _ ho
    simp only [decide_eq_true_eq] at ho ⊢
    exact Or.inl ho
  · have h1 : CronCallback.matchedCount ruleTTL now b e l notifyOk rules ≤
        (CronCallback.cycleOutcomes ruleTTL now b e l notifyOk rules).length :=
      List.countP_le_length _
    simpa [CronCallback.cycleOutcomes] using h1

/-! ### Codec word lemmas -/

namespace ReportCodec

theorem length_natToBeBytes (k n : Nat) : (natToBeBytes k n).length = k := by
  simp [natToBeBytes]

theorem length_natToWord (n : Nat) : (natToWord n).length = 32 :=
  length_natToBeBytes 32 n

theorem natToBeBytes_succ (k n : Nat) :
    natToBeBytes (k + 1) n = (n / 256 ^ k % 256) :: natToBeBytes k n := by
  unfold natToBeBytes
  rw [List.range_succ_eq_map]
  simp only [List.map_cons, List.map_map, Function.comp]
  have h0 : k + 1 - 1 - 0 = k := by omega
  rw [h0]
  congr 1
  apply List.map_congr_left
  intro a _
  simp only [Function.comp_apply, Nat.succ_eq_add_one]
  have he : k + 1 - 1 - (a + 1) = k - 1 - a := by omega
  rw [he]

theorem beToNat_from (bs : List Nat) :
    ∀ acc : Nat, bs.foldl (fun acc b => 256 * acc + b) acc =
      acc * 256 ^ bs.length + bs.foldl (fun acc b => 256 * acc + b) 0 := by
  induction bs with
  | nil => intro acc; simp
  | cons b bs ih =>
    intro acc
    rw [List.foldl_cons, List.foldl_cons, ih (256 * acc + b), ih (256 * 0 + b)]
    rw [List.length_cons]
    ring

theorem beToNat_cons (b : Nat) (bs : List Nat) :
    beToNat (b :: bs) = b * 256 ^ bs.length + beToNat bs := by
  unfold beToNat
  rw [List.foldl_cons, beToNat_from bs (256 * 0 + b)]
  ring

theorem beToNat_natToBeBytes (k n : Nat) :
    beToNat (natToBeBytes k n) = n % 256 ^ k := by
  induction k with
  | zero => simp [natToBeBytes, beToNat, Nat.mod_one]
  | succ k ih =>
    rw [natToBeBytes_succ, beToNat_cons, length_natToBeBytes, ih]
    have : 256 ^ (k + 1) = 256 ^ k * 256 := by ring
    rw [this, Nat.mod_mul]
    ring

theorem beToNat_natToWord (n : Nat) (h : n < 2 ^ 256) :
    beToNat (natToWord n) = n := by
  unfold natToWord
  rw [beToNat_natToBeBytes]
  have h256 : (256 : Nat) ^ 32 = 2 ^ 256 := by norm_num
  rw [h256]
  exact Nat.mod_eq_of_lt h

theorem length_padRight32 (bs : List Nat) :
    (padRight32 bs).length = bs.length + (32 - bs.length % 32) % 32 := by
  simp [padRight32]

end ReportCodec

namespace ReportCodec

theorem drop_past (bs : List Nat) (n m : Nat) {w rest : List Nat}
    (h : bs.drop n = w ++ rest) (hm : m = n + w.length) :
    bs.drop m = rest := by
  subst hm
  rw [← List.drop_drop, h, List.drop_left]

theorem readWord_of_drop (bs : List Nat) (off : Nat) {w rest : List Nat}
    (h : bs.drop off = w ++ rest) (hw : w.length = 32) :
    readWord bs off = beToNat w := by
  unfold readWord slice
  rw [h, List.take_left' hw]

theorem slice_of_drop (bs : List Nat) (off len : Nat) {mid rest : List Nat}
    (h : bs.drop off = mid ++ rest) (hm : mid.length = len) :
    slice bs off len = mid := by
  unfold slice
  rw [h, List.take_left' hm]

end ReportCodec

namespace ReportCodec

theorem decodeRule_encodeRule_aux (id A C : List Nat) (T CT : Nat)
    (hid : id.length = 32) (hT : T < 2 ^ 256) (hCT : CT < 2 ^ 256)
    (hA : A.length < 2 ^ 200) (hC : C.length < 2 ^ 200) :
    decodeRule (encodeRule ⟨id, A, C, T, CT⟩) = some ⟨id, A, C, T, CT⟩ := by
  set bs := encodeRule ⟨id, A, C, T, CT⟩ with hbs0
  have hbs : bs = id ++ (natToWord 160 ++
      (natToWord (160 + 32 + (padRight32 A).length) ++ (natToWord T ++
        (natToWord CT ++ (natToWord A.length ++ (padRight32 A ++
          (natToWord C.length ++ padRight32 C))))))) := by
    rw [hbs0]
    simp only [encodeRule, List.append_assoc]
  have hAPlen : (padRight32 A).length = A.length + (32 - A.length % 32) % 32 :=
    length_padRight32 A
  have hCPlen : (padRight32 C).length = C.length + (32 - C.length % 32) % 32 :=
    length_padRight32 C
  have hpow : (2 : Nat) ^ 200 + 256 < 2 ^ 256 := by norm_num
  have hblen : bs.length =
      224 + (padRight32 A).length + (padRight32 C).length := by
    rw [hbs]
    simp only [List.length_append, length_natToWord, hid]
    omega
  have d32 : bs.drop 32 = natToWord 160 ++
      (natToWord (160 + 32 + (padRight32 A).length) ++ (natToWord T ++
        (natToWord CT ++ (natToWord A.length ++ (padRight32 A ++
          (natToWord C.length ++ padRight32 C)))))) := by
    rw [hbs]
    exact List.drop_left' hid
  have d64 : bs.drop 64 = natToWord (160 + 32 + (padRight32 A).length) ++
      (natToWord T ++ (natToWord CT ++ (natToWord A.length ++ (padRight32 A ++
        (natToWord C.length ++ padRight32 C))))) :=
    drop_past bs 32 64 d32 (by simp [length_natToWord])
  have d96 : bs.drop 96 = natToWord T ++ (natToWord CT ++ (natToWord A.length ++
      (padRight32 A ++ (natToWord C.length ++ padRight32 C)))) :=
    drop_past bs 64 96 d64 (by simp [length_natToWord])
  have d128 : bs.drop 128 = natToWord CT ++ (natToWord A.length ++
      (padRight32 A ++ (natToWord C.length ++ padRight32 C))) :=
    drop_past bs 96 128 d96 (by simp [length_natToWord])
  have d160 : bs.drop 160 = natToWord A.length ++
      (padRight32 A ++ (natToWord C.length ++ padRight32 C)) :=
    drop_past bs 128 160 d128 (by simp [length_natToWord])
  have d192 : bs.drop 192 = padRight32 A ++ (natToWord C.length ++ padRight32 C) :=
    drop_past bs 160 192 d160 (by simp [length_natToWord])
  have dOffC : bs.drop (160 + 32 + (padRight32 A).length) =
      natToWord C.length ++ padRight32 C :=
    drop_past bs 192 (160 + 32 + (padRight32 A).length) d192 (by omega)
  have dTail : bs.drop (160 + 32 + (padRight32 A).length + 32) = padRight32 C :=
    drop_past bs (160 + 32 + (padRight32 A).length)
      (160 + 32 + (padRight32 A).length + 32) dOffC (by simp [length_natToWord])
  have h32 : readWord bs 32 = 160 := by
    rw [readWord_of_drop bs 32 d32 (length_natToWord 160)]
    exact beToNat_natToWord 160 (by norm_num)
  have hOffBound : 160 + 32 + (padRight32 A).length < 2 ^ 256 := by omega
  have h64 : readWord bs 64 = 160 + 32 + (padRight32 A).length := by
    rw [readWord_of_drop bs 64 d64 (length_natToWord _)]
    exact beToNat_natToWord _ hOffBound
  have h96 : readWord bs 96 = T := by
    rw [readWord_of_drop bs 96 d96 (length_natToWord _)]
    exact beToNat_natToWord _ hT
  have h128 : readWord bs 128 = CT := by
    rw [readWord_of_drop bs 128 d128 (length_natToWord _)]
    exact beToNat_natToWord _ hCT
  have h160 : readWord bs 160 = A.length := by
    rw [readWord_of_drop bs 160 d160 (length_natToWord _)]
    exact beToNat_natToWord _ (by omega)
  have hOffC : readWord bs (160 + 32 + (padRight32 A).length) = C.length := by
    rw [readWord_of_drop bs _ dOffC (length_natToWord _)]
    exact beToNat_natToWord _ (by omega)
  have sId : slice bs 0 32 = id := by
    unfold slice
    rw [List.drop_zero, hbs, List.take_left' hid]
  have dA : bs.drop (160 + 32) = A ++
      (List.replicate ((32 - A.length % 32) % 32) 0 ++
        (natToWord C.length ++ padRight32 C)) := by
    have e : (160 : Nat) + 32 = 192 := by norm_num
    rw [e, d192]
    simp only [padRight32, List.append_assoc]
  have sA : slice bs (160 + 32) A.length = A := slice_of_drop bs _ _ dA rfl
  have dC : bs.drop (160 + 32 + (padRight32 A).length + 32) = C ++
      List.replicate ((32 - C.length % 32) % 32) 0 := by
    rw [dTail]
    rfl
  have sC : slice bs (160 + 32 + (padRight32 A).length + 32) C.length = C :=
    slice_of_drop bs _ _ dC rfl
  have hg1 : ¬ bs.length < 160 := by omega
  simp only [decodeRule]
  rw [if_neg hg1, h32, h64, h96, h128, h160, hOffC, sId, sA, sC]
  have hg2 : ¬ bs.length < 160 + 32 := by omega
  have hg3 : ¬ bs.length < 160 + 32 + A.length := by omega
  have hg4 : ¬ bs.length < 160 + 32 + (padRight32 A).length + 32 := by omega
  have hg5 : ¬ bs.length < 160 + 32 + (padRight32 A).length + 32 + C.length := by
    omega
  rw [if_neg hg2, if_neg hg3, if_neg hg4, if_neg hg5]

end ReportCodec

/-- C3. Codec round trip: for every valid rule tuple — a 32-byte `id`,
arbitrary (boundedly long) asset and condition byte strings, and
`uint256` target price and creation time — decoding the canonical ABI
encoding under the fixed schema `(bytes32, string, string, uint256,
uint256)` returns exactly the original tuple. -/
theorem codec_round_trip (r : RuleRegistry.Rule) (hid : r.id.length = 32)
    (hT : r.targetPriceUsd < 2 ^ 256) (hCT : r.createdAt < 2 ^ 256)
    (hA : r.asset.length < 2 ^ 200) (hC : r.condition.length < 2 ^ 200) :
    ReportCodec.decodeRule (ReportCodec.encodeRule r) = some r := by
  obtain ⟨id, A, C, T, CT⟩ := r
  exact ReportCodec.decodeRule_encodeRule_aux id A C T CT hid hT hCT hA hC

set_option maxRecDepth 10000 in
/-- Witness for C3 at a concrete rule ("BTC", "gt", 50000). -/
theorem codec_round_trip_witness :
    ReportCodec.decodeRule (ReportCodec.encodeRule
      ⟨List.replicate 32 7, [66, 84, 67], [103, 116], 50000, 1700000000⟩) =
      some ⟨List.replicate 32 7, [66, 84, 67], [103, 116], 50000, 1700000000⟩ :=
  codec_round_trip ⟨List.replicate 32 7, [66, 84, 67], [103, 116], 50000, 1700000000⟩
    (by decide) (by decide) (by decide) (by decide) (by decide)
